import Mathlib

/-!
# Timed quiz (`main.go`): model and verified properties

A shallow embedding of `src/main.go`.  Go strings are modelled by Lean `String`
(sequences of Unicode code points, i.e. valid UTF-8 text), Go slices by `List`,
and the standard-library routines the program calls (`strings.TrimSpace`,
`csv.Reader.Read`, `bufio.Scanner.Scan`, `fmt.Printf`) by small functional
models that follow their documented behaviour, the 64 KiB token limit of the
scanner included. The goroutine of `runQuiz` and
the `select` loop of `main` are modelled as a transition system over schedules
of events, in which the steps of the two interleave.
-/

set_option linter.dupNamespace false

namespace Quiz

/-! ## Standard-library models -/

/-- Go `unicode.IsSpace`: in Latin-1 the characters `\t \n \v \f \r`, space,
U+0085 and U+00A0; above Latin-1 the members of the `White_Space` table. -/
def isSpace (c : Char) : Bool :=
  let r := c.toNat
  if r ≤ 0xFF then
    r == 0x09 || r == 0x0A || r == 0x0B || r == 0x0C || r == 0x0D || r == 0x20
      || r == 0x85 || r == 0xA0
  else
    r == 0x1680 || (0x2000 ≤ r && r ≤ 0x200A) || r == 0x2028 || r == 0x2029
      || r == 0x202F || r == 0x205F || r == 0x3000

/-- Go `strings.TrimLeftFunc(s, unicode.IsSpace)` on the characters of a string. -/
def trimLeft (l : List Char) : List Char := l.dropWhile isSpace

/-- Go `strings.TrimRightFunc(s, unicode.IsSpace)` on the characters of a string. -/
def trimRight (l : List Char) : List Char := (l.reverse.dropWhile isSpace).reverse

/-- Go `strings.TrimSpace`: the string with all leading and trailing white
space (as defined by `unicode.IsSpace`) removed. -/
def TrimSpace (s : String) : String := ⟨trimRight (trimLeft s.data)⟩

/-- An argument of `fmt.Printf`: an `int` (only non-negative counters and
lengths are formatted by the program) or a `string`. -/
inductive Arg where
  | int (n : Nat)
  | str (s : String)

/-- The text `fmt` produces for an argument under the verb `%v` (and `%s` for
strings): decimal digits for an integer, the string itself for a string. -/
def Arg.format : Arg → List Char
  | .int n => (Nat.repr n).data
  | .str s => s.data

/-- The fragment of Go `fmt.Sprintf` used by the program: the verbs `%v` and
`%s` consume the next argument, every other character is copied. A verb with
no argument left prints Go's `%!v(MISSING)` marker. -/
def sprintfChars : List Char → List Arg → List Char
  | [], _ => []
  | [c], _ => [c]
  | c :: d :: rest, args =>
    if c = '%' ∧ (d = 'v' ∨ d = 's') then
      match args with
      | a :: args' => a.format ++ sprintfChars rest args'
      | [] => ['%', '!', d] ++ "(MISSING)".data ++ sprintfChars rest []
    else c :: sprintfChars (d :: rest) args

/-- Go `fmt.Sprintf` (fragment): see `sprintfChars`. -/
def Sprintf (format : String) (args : List Arg) : String :=
  ⟨sprintfChars format.data args⟩

/-- The Go `error` values that `csv.Reader.Read` hands to `createQuiz`:
the sentinels `csv.ErrFieldCount` and `io.EOF`, and a `*csv.ParseError`
wrapping another error at a line. -/
inductive error where
  | ErrFieldCount
  | EOF
  | ParseError (line : Nat) (Err : error)
  deriving DecidableEq, Repr

/-- Go `csv.Reader` over an input already split into records: the public
field `FieldsPerRecord` and the records not yet read, with the line counter.
Every record of a real CSV file has at least one field. -/
structure Reader where
  FieldsPerRecord : Int
  records : List (List String)
  line : Nat
  deriving DecidableEq, Repr

/-- Go `csv.NewReader`: `FieldsPerRecord` starts at 0. -/
def NewReader (records : List (List String)) : Reader :=
  { FieldsPerRecord := 0, records := records, line := 0 }

/-- Go `csv.Reader.Read`. At end of input it returns `(nil, io.EOF)`. Otherwise
it returns the next record; when `FieldsPerRecord` is positive and the record
has another number of fields the record comes with a `*ParseError` whose `Err`
is `ErrFieldCount`; when `FieldsPerRecord` is 0 it is set to the number of
fields of this (the first) record. -/
def Reader.Read (r : Reader) : (List String × Option error) × Reader :=
  match r.records with
  | [] => (([], some error.EOF), r)
  | record :: rest =>
    let r1 : Reader := { r with records := rest, line := r.line + 1 }
    if 0 < r.FieldsPerRecord then
      if (record.length : Int) ≠ r.FieldsPerRecord then
        ((record, some (error.ParseError (r.line + 1) error.ErrFieldCount)), r1)
      else ((record, none), r1)
    else if r.FieldsPerRecord = 0 then
      ((record, none), { r1 with FieldsPerRecord := (record.length : Int) })
    else ((record, none), r1)

/-! ## The program -/

/-- Go `type question struct`: the question text, the correct answer and
whether the correct response was given. -/
structure question where
  question : String
  answer : String
  correctResponseGiven : Bool
  deriving DecidableEq, Repr

/-- How a call of `createQuiz` ends: it returns the slice, or `log.Fatal(err)`
exits the process, or indexing the record panics (`index out of range [idx]
with length len`); `stdout` is what `fmt.Println` wrote before. `outOfFuel`
is the loop bound of the model being exhausted (shown never to happen). -/
inductive Outcome where
  | returned (quiz : List question) (stdout : List String)
  | fatal (stdout : List String) (err : error)
  | indexPanic (stdout : List String) (idx len : Nat)
  | outOfFuel
  deriving DecidableEq, Repr

/-- The `for` loop of `createQuiz` (lines 79-99), run for at most `fuel`
iterations on reader `r` with the slice `quiz` built so far. -/
def createQuizLoop : Nat → Reader → List question → List String → Outcome
  | 0, _, _, _ => Outcome.outOfFuel
  | fuel + 1, r, quiz, stdout =>
    match r.Read with
    | ((_, some err), _) =>
      if err = error.ErrFieldCount then
        Outcome.fatal
          (stdout ++ ["record from quiz file had an unexpected number of fields\n"]) err
      else if err = error.EOF then
        Outcome.returned quiz stdout
      else Outcome.fatal stdout err
    | ((record, none), r1) =>
      match record[0]? with
      | none => Outcome.indexPanic stdout 0 record.length
      | some f0 =>
        match record[1]? with
        | none => Outcome.indexPanic stdout 1 record.length
        | some f1 =>
          createQuizLoop fuel r1
            (quiz ++ [{ question := f0, answer := TrimSpace f1,
                        correctResponseGiven := false }]) stdout

/-- Go `createQuiz`: reads every record of the CSV reader into a slice of
questions. The `make(..., 0, 100)` capacity is only an allocation hint:
`append` reallocates when it is exceeded, so the slice is a plain list here. -/
def createQuiz (r : Reader) : Outcome :=
  createQuizLoop (r.records.length + 1) r [] []

/-- Go `bufio.MaxScanTokenSize`: the largest buffer a `Scanner` made by
`NewScanner` allocates, 64 KiB. A line and its newline have to fit into it. -/
def MaxScanTokenSize : Nat := 64 * 1024

/-- Go `utf8.RuneLen`: the number of bytes of the UTF-8 encoding of a character. -/
def runeLen (c : Char) : Nat :=
  if c.toNat < 0x80 then 1 else if c.toNat < 0x800 then 2 else if c.toNat < 0x10000 then 3 else 4

/-- Go `len(s)`: the number of bytes of the text with the given characters. -/
def byteLen (l : List Char) : Nat := l.foldl (fun n c => n + runeLen c) 0

/-- The characters encoded by the next `n` bytes of a text, after the
characters `acc` (in reverse) already taken; `none` when the cut falls inside
the encoding of a character. -/
def firstBytesFrom : Nat → List Char → List Char → Option (List Char)
  | _, [], acc => some acc.reverse
  | n, c :: cs, acc =>
    if n = 0 then some acc.reverse
    else if runeLen c ≤ n then firstBytesFrom (n - runeLen c) cs (c :: acc)
    else none

/-- The first `n` bytes of a text that has at least `n` bytes: the characters
they encode, or `none` when the cut falls inside the encoding of a character,
so that the bytes are not valid UTF-8. -/
def firstBytes (n : Nat) (l : List Char) : Option (List Char) := firstBytesFrom n l []

/-- The helper `dropCR` of Go `bufio.ScanLines`: one trailing carriage return
is dropped from a line. -/
def dropCR (l : String) : String :=
  if l.data.getLast? = some '\r' then ⟨l.data.dropLast⟩ else l

/-- Where a `bufio.Scanner` stands: no error so far; `ErrTooLong` recorded
with the buffer still full of the first `MaxScanTokenSize` bytes of the
offending line (the token they will be delivered as); or `ErrTooLong` recorded
and the buffer drained. -/
inductive ScanState where
  | reading
  | tooLong (buffered : Option String)
  | stopped
  deriving DecidableEq, Repr

/-- Go `bufio.Scanner` on standard input with the default `ScanLines` split
and the default buffer: the input lines not yet read (each without its
terminating newline), the current token and the scanner's state. A token is
`none` when its bytes are not valid UTF-8 text. -/
structure Scanner where
  lines : List String
  token : Option String
  state : ScanState
  deriving DecidableEq, Repr

/-- Go `bufio.NewScanner(os.Stdin)` on the given pending input lines. -/
def NewScanner (lines : List String) : Scanner :=
  { lines := lines, token := some "", state := ScanState.reading }

/-- Go `Scanner.Scan`. While no error is recorded it advances to the next
line, which becomes the token, provided the line is shorter than
`MaxScanTokenSize` bytes; at end of input the token is empty. On a longer line
it records `ErrTooLong` and leaves the token empty; the call after that
delivers the buffered first `MaxScanTokenSize` bytes of that line as the
token, and every later call leaves the token empty, nothing more being read. -/
def Scanner.Scan (s : Scanner) : Scanner :=
  match s.state with
  | ScanState.reading =>
    match s.lines with
    | [] => { s with token := some "" }
    | l :: rest =>
      if byteLen l.data < MaxScanTokenSize then
        { lines := rest, token := some (dropCR l), state := ScanState.reading }
      else
        { s with
          token := some "",
          state := ScanState.tooLong
            ((firstBytes MaxScanTokenSize l.data).map (fun t => dropCR ⟨t⟩)) }
  | ScanState.tooLong buffered => { s with token := buffered, state := ScanState.stopped }
  | ScanState.stopped => { s with token := some "" }

/-- Go `Scanner.Text`: the most recent token. -/
def Scanner.Text (s : Scanner) : Option String := s.token

/-- The statement `quiz[i].correctResponseGiven = true` on the shared slice. -/
def markCorrect : List question → Nat → List question
  | [], _ => []
  | q :: qs, 0 => { q with correctResponseGiven := true } :: qs
  | q :: qs, i + 1 => q :: markCorrect qs i

/-- The state of the goroutine running `runQuiz`: the shared slice `quiz`, the
range index `i`, the counter behind the pointer `correctAnswers`, the scanner
`s`, what it has printed, and whether it has reached `done <- true`. The
counter only counts up from the caller's value by at most `len(quiz)`, so it
is a natural number and cannot wrap. -/
structure Runner where
  quiz : List question
  i : Nat
  correctAnswers : Nat
  s : Scanner
  stdout : List String
  sending : Bool
  deriving DecidableEq, Repr

/-- The body of the `range` loop of `runQuiz` (lines 109-120) for index `st.i`
and element copy `quizQuestion`, followed by the index increment. The result
of `s.Scan()` is not looked at. A token that is not valid UTF-8 keeps its
invalid bytes under `TrimSpace` and so equals no stored answer. -/
def Runner.body (st : Runner) (quizQuestion : question) : Runner :=
  let stdout := st.stdout ++
    [Sprintf "Problem #%v: %s = " [Arg.int (st.i + 1), Arg.str quizQuestion.question]]
  let s := st.s.Scan
  if some quizQuestion.answer = s.Text.map TrimSpace then
    { quiz := markCorrect st.quiz st.i, i := st.i + 1,
      correctAnswers := st.correctAnswers + 1, s := s, stdout := stdout,
      sending := st.sending }
  else
    { quiz := st.quiz, i := st.i + 1, correctAnswers := st.correctAnswers,
      s := s, stdout := stdout, sending := st.sending }

/-- One step of the `runQuiz` goroutine: the next iteration of the `range`
loop while an element is left, then the arrival at `done <- true`, where it
stays blocked until `main` receives. -/
def Runner.step (st : Runner) : Runner :=
  if st.sending then st
  else
    match st.quiz[st.i]? with
    | some quizQuestion => st.body quizQuestion
    | none => { st with sending := true }

/-- The state in which `runQuiz(quiz, &correctAnswers, done)` starts. -/
def Runner.init (quiz : List question) (correctAnswers : Nat) (stdin : List String) :
    Runner :=
  { quiz := quiz, i := 0, correctAnswers := correctAnswers, s := NewScanner stdin,
    stdout := [], sending := false }

/-- Go `runQuiz` run to completion: the `len(quiz)` iterations of the `range`
loop and then the send on `done`. -/
def runQuiz (quiz : List question) (correctAnswers : Nat) (stdin : List String) : Runner :=
  Runner.step^[quiz.length + 1] (Runner.init quiz correctAnswers stdin)

/-- What a `select` case does to the enclosing `for` loop: `return` from
`main`, or fall through to the next iteration. -/
inductive Ctl where
  | ret
  | next
  deriving DecidableEq, Repr

/-- The two cases of the `select` statement of `main` (lines 62-71). -/
inductive SelectCase where
  | timeAfter
  | done
  deriving DecidableEq, Repr

/-- The body of the `select` case taken (lines 64-70): what `fmt.Printf` writes
for the current counter and `len(quiz)`, and how control continues. -/
def selectBody (c : SelectCase) (correctAnswers lenQuiz : Nat) : String × Ctl :=
  match c with
  | SelectCase.timeAfter =>
    (Sprintf "\nYou scored %v out of %v.\n" [Arg.int correctAnswers, Arg.int lenQuiz], Ctl.ret)
  | SelectCase.done =>
    (Sprintf "You scored %v out of %v.\n" [Arg.int correctAnswers, Arg.int lenQuiz], Ctl.ret)

/-- The program from `go runQuiz(...)` on (lines 60-72): the runner goroutine,
what `main` has printed, how many times its `select` has fired and whether
`main` has returned (which ends the process, runner included). -/
structure Sys where
  runner : Runner
  mainOut : List String
  selects : Nat
  returned : Bool
  deriving DecidableEq, Repr

/-- The events of the race: the runner goroutine takes its next step, the timer
of `time.After(timeLimit)` fires and `main` takes that case, or `main` takes
the case `<-done` (possible only while the runner is blocked in its send). -/
inductive Event where
  | runner
  | deadline
  | recv
  deriving DecidableEq, Repr

/-- The state of `main` after its `select` fired with case `c`. -/
def Sys.fire (s : Sys) (c : SelectCase) : Sys :=
  match selectBody c s.runner.correctAnswers s.runner.quiz.length with
  | (text, Ctl.ret) =>
    { s with mainOut := s.mainOut ++ [text], selects := s.selects + 1, returned := true }
  | (text, Ctl.next) =>
    { s with mainOut := s.mainOut ++ [text], selects := s.selects + 1 }

/-- One transition of the race. Nothing happens after `main` has returned; an
event that is not enabled leaves the state unchanged. -/
def Sys.step (s : Sys) (e : Event) : Sys :=
  if s.returned then s
  else
    match e with
    | Event.runner => { s with runner := s.runner.step }
    | Event.deadline => s.fire SelectCase.timeAfter
    | Event.recv => if s.runner.sending then s.fire SelectCase.done else s

/-- The state right after `go runQuiz(quiz, &correctAnswers, done)` with
`correctAnswers := 0` (lines 56-60). -/
def Sys.init (quiz : List question) (stdin : List String) : Sys :=
  { runner := Runner.init quiz 0 stdin, mainOut := [], selects := 0, returned := false }

/-- The race run along a schedule of events. -/
def exec (s : Sys) (schedule : List Event) : Sys := schedule.foldl Sys.step s

/-- The run in which the runner completes `k` steps and then the deadline fires. -/
def deadlineAfter (k : Nat) : List Event := List.replicate k Event.runner ++ [Event.deadline]

/-- The run in which the runner finishes and `main` receives its signal. -/
def completion (n : Nat) : List Event := List.replicate (n + 1) Event.runner ++ [Event.recv]

/-! ## Specification-side definitions -/

/-- The number of positions at which the trimmed response equals the stored
answer of the question at that position. -/
def countCorrect (quiz : List question) (responses : List String) : Nat :=
  (quiz.zip responses).countP (fun p => decide (p.1.answer = TrimSpace p.2))

/-- The question after its response `r` has been judged: its flag is set when
the trimmed response equals the stored answer, and it is unchanged otherwise. -/
def judge (q : question) (r : String) : question :=
  if q.answer = TrimSpace r then { q with correctResponseGiven := true } else q

/-- The question a two-field record `[p, a]` stands for: prompt `p` verbatim,
answer `a` trimmed, flag cleared. -/
def questionOf (p a : String) : question :=
  { question := p, answer := TrimSpace a, correctResponseGiven := false }

/-- The records of a CSV input given as (prompt, answer) pairs. -/
def recordsOf (pairs : List (String × String)) : List (List String) :=
  pairs.map (fun pa => [pa.1, pa.2])

/-- Whether the question `createQuiz` builds from the record `[p, a]` is judged
correct by `runQuiz` on the response line `r`: the counter goes from 0 to 1
and the flag of the question is set. -/
def judgedCorrect (p a r : String) : Bool :=
  match createQuiz (NewReader [[p, a]]) with
  | Outcome.returned quiz _ =>
    let st := runQuiz quiz 0 [r]
    decide (st.correctAnswers = 1) && decide (st.quiz.map (·.correctResponseGiven) = [true])
  | _ => false

/-- The line made of `n` letters `a`. -/
def longLine (n : Nat) : String := ⟨List.replicate n 'a'⟩

/-- Two questions with the stored answers `x` and `b`. -/
def twoQuestions : List question :=
  [{ question := "q1", answer := "x", correctResponseGiven := false },
   { question := "q2", answer := "b", correctResponseGiven := false }]

/-- Three questions with the stored answers `x`, `b` and `c`. -/
def threeQuestions : List question :=
  [{ question := "q1", answer := "x", correctResponseGiven := false },
   { question := "q2", answer := "b", correctResponseGiven := false },
   { question := "q3", answer := "c", correctResponseGiven := false }]

/-- The records of the sample file of the specification's scenario. -/
def scenarioRows : List (List String) := [["2+2", "4"], ["capital of France", "Paris"]]

/-- The quiz set of the scenario. -/
def scenarioQuiz : List question :=
  [questionOf "2+2" "4", questionOf "capital of France" "Paris"]

/-! ## Lemmas on `strings.TrimSpace` -/

theorem trimLeft_spaces_append (ws l : List Char) (h : ∀ c ∈ ws, isSpace c = true) :
    trimLeft (ws ++ l) = trimLeft l := by
  induction ws with
  | nil => rfl
  | cons c ws ih =>
    have hc : isSpace c = true := h c (List.mem_cons_self c ws)
    have hws : ∀ d ∈ ws, isSpace d = true := fun d hd => h d (List.mem_cons_of_mem c hd)
    simp only [trimLeft, List.cons_append, List.dropWhile_cons, hc, if_true]
    exact ih hws

theorem trimLeft_spaces (ws : List Char) (h : ∀ c ∈ ws, isSpace c = true) :
    trimLeft ws = [] := by
  have := trimLeft_spaces_append ws [] h
  simpa [trimLeft] using this

theorem trimRight_append_spaces (l ws : List Char) (h : ∀ c ∈ ws, isSpace c = true) :
    trimRight (l ++ ws) = trimRight l := by
  have h' : ∀ c ∈ ws.reverse, isSpace c = true := fun c hc => h c (List.mem_reverse.mp hc)
  have := trimLeft_spaces_append ws.reverse l.reverse h'
  simp only [trimRight, List.reverse_append]
  simp only [trimLeft] at this
  rw [this]

theorem trim_append_spaces (l ws : List Char) (h : ∀ c ∈ ws, isSpace c = true) :
    trimRight (trimLeft (l ++ ws)) = trimRight (trimLeft l) := by
  induction l with
  | nil =>
    simp only [List.nil_append]
    rw [trimLeft_spaces ws h]
    rfl
  | cons c l ih =>
    by_cases hc : isSpace c = true
    · have e1 : trimLeft (c :: l ++ ws) = trimLeft (l ++ ws) := by
        simp [trimLeft, List.dropWhile_cons, hc]
      have e2 : trimLeft (c :: l) = trimLeft l := by
        simp [trimLeft, List.dropWhile_cons, hc]
      rw [e1, e2, ih]
    · have e1 : trimLeft (c :: l ++ ws) = c :: l ++ ws := by
        simp [trimLeft, List.dropWhile_cons, hc]
      have e2 : trimLeft (c :: l) = c :: l := by
        simp [trimLeft, List.dropWhile_cons, hc]
      rw [e1, e2]
      exact trimRight_append_spaces (c :: l) ws h

/-- Padding a string with white space on either side does not change what
`TrimSpace` returns. -/
theorem TrimSpace_pad (ws a ws' : String) (h : ∀ c ∈ ws.data, isSpace c = true)
    (h' : ∀ c ∈ ws'.data, isSpace c = true) :
    TrimSpace (ws ++ a ++ ws') = TrimSpace a := by
  apply String.ext
  simp only [TrimSpace, String.data_append]
  rw [trim_append_spaces _ _ h', trimLeft_spaces_append _ _ h]

/-- The carriage return dropped by the line scanner is white space, so
dropping it does not change the trimmed text. -/
theorem TrimSpace_dropCR (l : String) : TrimSpace (dropCR l) = TrimSpace l := by
  unfold dropCR
  split
  · next h =>
    have e : l.data.dropLast ++ ['\r'] = l.data :=
      List.dropLast_append_getLast? '\r' (by simp [h])
    apply String.ext
    simp only [TrimSpace]
    conv_rhs => rw [← e]
    rw [trim_append_spaces]
    intro c hc
    have : c = '\r' := by simpa using hc
    subst this
    decide
  · rfl

theorem head?_dropWhile_isSpace (l : List Char) (c : Char)
    (h : (l.dropWhile isSpace).head? = some c) : isSpace c = false := by
  have := List.head?_dropWhile_not isSpace l
  rw [h] at this
  exact this

/-- What `TrimSpace` returns: the input is the result between a run of leading
and a run of trailing white space, and the result neither starts nor ends
with white space. -/
theorem TrimSpace_spec (a : String) :
    ∃ pre post : List Char,
      a.data = pre ++ (TrimSpace a).data ++ post ∧
      (∀ c ∈ pre, isSpace c = true) ∧ (∀ c ∈ post, isSpace c = true) ∧
      (∀ c, (TrimSpace a).data.head? = some c → isSpace c = false) ∧
      (∀ c, (TrimSpace a).data.getLast? = some c → isSpace c = false) := by
  have hm : (trimLeft a.data) =
      trimRight (trimLeft a.data) ++ ((trimLeft a.data).reverse.takeWhile isSpace).reverse := by
    have := List.takeWhile_append_dropWhile isSpace (trimLeft a.data).reverse
    have h2 := congrArg List.reverse this
    simp only [List.reverse_append, List.reverse_reverse] at h2
    exact h2.symm
  refine ⟨a.data.takeWhile isSpace, ((trimLeft a.data).reverse.takeWhile isSpace).reverse,
    ?_, ?_, ?_, ?_, ?_⟩
  · show a.data = a.data.takeWhile isSpace ++ trimRight (trimLeft a.data) ++ _
    rw [List.append_assoc, ← hm]
    exact (List.takeWhile_append_dropWhile isSpace a.data).symm
  · intro c hc
    exact List.mem_takeWhile_imp hc
  · intro c hc
    exact List.mem_takeWhile_imp (List.mem_reverse.mp hc)
  · intro c hc
    have hc' : (trimRight (trimLeft a.data)).head? = some c := hc
    obtain ⟨ys, hys⟩ := List.head?_eq_some_iff.mp hc'
    apply head?_dropWhile_isSpace a.data c
    show (trimLeft a.data).head? = some c
    rw [hm, hys]
    rfl
  · intro c hc
    have hc' : (trimRight (trimLeft a.data)).getLast? = some c := hc
    apply head?_dropWhile_isSpace (trimLeft a.data).reverse c
    rw [← hc']
    simp [trimRight]

/-! ## Lemmas on `createQuiz` -/

/-- The loop of `createQuiz` on two-field records: with fuel beyond the number
of records it returns the slice extended by one question per record, in
order, whether the reader has not fixed its field count yet or has fixed 2. -/
theorem createQuizLoop_pairs (pairs : List (String × String)) :
    ∀ (fuel : Nat) (fpr : Int) (line : Nat) (quiz : List question) (stdout : List String),
      (fpr = 0 ∨ fpr = 2) → pairs.length < fuel →
      createQuizLoop fuel { FieldsPerRecord := fpr, records := recordsOf pairs, line := line }
          quiz stdout
        = Outcome.returned (quiz ++ pairs.map (fun pa => questionOf pa.1 pa.2)) stdout := by
  induction pairs with
  | nil =>
    intro fuel fpr line quiz stdout _ hfuel
    cases fuel with
    | zero => simp at hfuel
    | succ fuel => simp [createQuizLoop, Reader.Read, recordsOf]
  | cons pa rest ih =>
    intro fuel fpr line quiz stdout hfpr hfuel
    cases fuel with
    | zero => simp at hfuel
    | succ fuel =>
      have hfuel' : rest.length < fuel := by
        simp only [List.length_cons] at hfuel
        omega
      have key := ih fuel 2 (line + 1) (quiz ++ [questionOf pa.1 pa.2]) stdout (Or.inr rfl) hfuel'
      rcases hfpr with h0 | h2
      · subst h0
        simp only [createQuizLoop, Reader.Read, recordsOf, List.map_cons]
        simp only [recordsOf] at key
        simpa [questionOf] using key
      · subst h2
        simp only [createQuizLoop, Reader.Read, recordsOf, List.map_cons]
        simp only [recordsOf] at key
        simpa [questionOf] using key

/-- On an input of (prompt, answer) records `createQuiz` returns, printing
nothing, one question per record in the order of the records. -/
theorem createQuiz_pairs (pairs : List (String × String)) :
    createQuiz (NewReader (recordsOf pairs))
      = Outcome.returned (pairs.map (fun pa => questionOf pa.1 pa.2)) [] := by
  have := createQuizLoop_pairs pairs (pairs.length + 1) 0 0 [] [] (Or.inl rfl) (by omega)
  simpa [createQuiz, NewReader, recordsOf] using this

/-- Records that all have exactly two fields are the records of a list of
(prompt, answer) pairs. -/
theorem exists_pairs_of_two_fields (rows : List (List String))
    (h : ∀ row ∈ rows, row.length = 2) : ∃ pairs, rows = recordsOf pairs := by
  induction rows with
  | nil => exact ⟨[], rfl⟩
  | cons row rows ih =>
    obtain ⟨pairs, hp⟩ := ih (fun r hr => h r (List.mem_cons_of_mem row hr))
    have hrow := h row (List.mem_cons_self row rows)
    match row, hrow with
    | [p, a], _ => exact ⟨(p, a) :: pairs, by simp [recordsOf, hp]⟩

/-! ## Lemmas on `runQuiz` -/

theorem markCorrect_eq (l : List question) :
    ∀ (i : Nat) (h : i < l.length),
      markCorrect l i
        = l.take i ++ { l[i] with correctResponseGiven := true } :: l.drop (i + 1) := by
  induction l with
  | nil => intro i h; simp at h
  | cons q qs ih =>
    intro i h
    cases i with
    | zero => simp [markCorrect]
    | succ i =>
      have h' : i < qs.length := by simpa using h
      simp [markCorrect, ih i h']

/-- One iteration of the loop of `runQuiz`, on question `st.i` and the next
input line `l`, which is within the scanner's limit. -/
theorem step_one (st : Runner) (l : String) (ls : List String) (hs : st.sending = false)
    (hi : st.i < st.quiz.length) (hl : st.s.lines = l :: ls)
    (hst : st.s.state = ScanState.reading) (hshort : byteLen l.data < MaxScanTokenSize) :
    st.step.i = st.i + 1 ∧ st.step.sending = false ∧
    st.step.correctAnswers
      = st.correctAnswers + (if st.quiz[st.i].answer = TrimSpace l then 1 else 0) ∧
    st.step.quiz = st.quiz.take st.i ++ judge st.quiz[st.i] l :: st.quiz.drop (st.i + 1) ∧
    st.step.s.lines = ls ∧ st.step.stdout.length = st.stdout.length + 1 ∧
    st.step.s.state = ScanState.reading := by
  have hget : st.quiz[st.i]? = some st.quiz[st.i] := List.getElem?_eq_getElem hi
  have hscan : st.s.Scan
      = { lines := ls, token := some (dropCR l), state := ScanState.reading } := by
    simp [Scanner.Scan, hl, hst, hshort]
  have htok : st.s.Scan.Text.map TrimSpace = some (TrimSpace l) := by
    simp [hscan, Scanner.Text, TrimSpace_dropCR]
  have hlines : st.s.Scan.lines = ls := by simp [hscan]
  have hstate : st.s.Scan.state = ScanState.reading := by simp [hscan]
  have hdef : st.step = st.body st.quiz[st.i] := by
    simp only [Runner.step, hget, hs, Bool.false_eq_true, if_false]
  rw [hdef]
  by_cases hm : st.quiz[st.i].answer = TrimSpace l
  · have hq : markCorrect st.quiz st.i
        = st.quiz.take st.i ++ judge st.quiz[st.i] l :: st.quiz.drop (st.i + 1) := by
      simp only [judge, hm, if_true]
      rw [← hm]
      exact markCorrect_eq st.quiz st.i hi
    refine ⟨?_, ?_, ?_, ?_, ?_, ?_, ?_⟩
    · simp [Runner.body, htok, hm]
    · simp [Runner.body, htok, hm, hs]
    · simp [Runner.body, htok, hm]
    · simpa [Runner.body, htok, hm] using hq
    · simpa [Runner.body, htok, hm] using hlines
    · simp [Runner.body, htok, hm]
    · simpa [Runner.body, htok, hm] using hstate
  · have hq : st.quiz
        = st.quiz.take st.i ++ judge st.quiz[st.i] l :: st.quiz.drop (st.i + 1) := by
      simp only [judge, hm, if_false]
      rw [List.getElem_cons_drop]
      exact (List.take_append_drop st.i st.quiz).symm
    refine ⟨?_, ?_, ?_, ?_, ?_, ?_, ?_⟩
    · simp [Runner.body, htok, hm]
    · simp [Runner.body, htok, hm, hs]
    · simp [Runner.body, htok, hm]
    · simpa [Runner.body, htok, hm] using hq
    · simpa [Runner.body, htok, hm] using hlines
    · simp [Runner.body, htok, hm]
    · simpa [Runner.body, htok, hm] using hstate

/-- The state of the runner after `k` iterations of its loop: it is at
question `st.i + k`, has consumed `k` input lines and printed `k` prompts, has
judged the `k` questions in between, and has added to the counter the number
of them whose stored answer equals the trimmed response. -/
theorem step_iterate (k : Nat) :
    ∀ (st : Runner), st.sending = false → st.i + k ≤ st.quiz.length →
      k ≤ st.s.lines.length → st.s.state = ScanState.reading →
      (∀ r ∈ st.s.lines.take k, byteLen r.data < MaxScanTokenSize) →
      (Runner.step^[k] st).i = st.i + k ∧ (Runner.step^[k] st).sending = false ∧
      (Runner.step^[k] st).correctAnswers
        = st.correctAnswers
          + countCorrect ((st.quiz.drop st.i).take k) (st.s.lines.take k) ∧
      (Runner.step^[k] st).quiz
        = st.quiz.take st.i
          ++ List.zipWith judge ((st.quiz.drop st.i).take k) (st.s.lines.take k)
          ++ st.quiz.drop (st.i + k) ∧
      (Runner.step^[k] st).s.lines = st.s.lines.drop k ∧
      (Runner.step^[k] st).stdout.length = st.stdout.length + k ∧
      (Runner.step^[k] st).s.state = ScanState.reading := by
  induction k with
  | zero =>
    intro st hs _ _ hst _
    simp [hs, hst, countCorrect]
  | succ k ih =>
    intro st hs hi hl hst hshort
    have hi' : st.i < st.quiz.length := by omega
    obtain ⟨l, ls, hlines⟩ : ∃ l ls, st.s.lines = l :: ls := by
      cases h : st.s.lines with
      | nil => rw [h] at hl; simp at hl
      | cons l ls => exact ⟨l, ls, rfl⟩
    have hshort1 : byteLen l.data < MaxScanTokenSize :=
      hshort l (by rw [hlines]; simp)
    obtain ⟨h1, h2, h3, h4, h5, h6, h7⟩ := step_one st l ls hs hi' hlines hst hshort1
    have hshort' : ∀ r ∈ st.step.s.lines.take k, byteLen r.data < MaxScanTokenSize := by
      intro r hr
      rw [h5] at hr
      exact hshort r (by rw [hlines, List.take_succ_cons]; exact List.mem_cons_of_mem l hr)
    have hlen : st.step.quiz.length = st.quiz.length := by
      rw [h4]
      simp
      omega
    have hk : k ≤ st.step.s.lines.length := by
      rw [h5]
      rw [hlines] at hl
      simpa using hl
    obtain ⟨g1, g2, g3, g4, g5, g6, g7⟩ :=
      ih st.step h2 (by rw [h1, hlen]; omega) hk h7 hshort'
    have htake : (st.quiz.take st.i).length = st.i := by
      simp
      omega
    have hsplit : st.step.quiz
        = (st.quiz.take st.i ++ [judge st.quiz[st.i] l]) ++ st.quiz.drop (st.i + 1) := by
      rw [h4]
      simp
    have hlen1 : (st.quiz.take st.i ++ [judge st.quiz[st.i] l]).length = st.i + 1 := by
      simp
      omega
    have htk : st.step.quiz.take (st.i + 1) = st.quiz.take st.i ++ [judge st.quiz[st.i] l] := by
      rw [hsplit]
      exact List.take_left' hlen1
    have hdr : st.step.quiz.drop (st.i + 1) = st.quiz.drop (st.i + 1) := by
      rw [hsplit]
      exact List.drop_left' hlen1
    have hdrk : st.step.quiz.drop (st.i + 1 + k) = st.quiz.drop (st.i + (k + 1)) := by
      rw [← List.drop_drop, hdr, List.drop_drop]
      congr 1
      omega
    have hdrop : st.quiz.drop st.i = st.quiz[st.i] :: st.quiz.drop (st.i + 1) :=
      List.drop_eq_getElem_cons hi'
    rw [Function.iterate_succ_apply]
    rw [h1] at g1 g3 g4
    rw [h5] at g3 g4 g5
    rw [hdr] at g3 g4
    rw [htk, hdrk] at g4
    refine ⟨by rw [g1]; omega, g2, ?_, ?_, ?_, by rw [g6, h6]; omega, g7⟩
    · rw [g3, h3, hdrop, hlines]
      simp only [List.take_succ_cons, countCorrect, List.zip_cons_cons, List.countP_cons,
        decide_eq_true_eq]
      omega
    · rw [g4, hdrop, hlines]
      simp only [List.take_succ_cons, List.zipWith_cons_cons, List.cons_append,
        List.append_assoc, List.singleton_append, List.nil_append]
    · rw [g5, hlines]
      simp

theorem markCorrect_length (l : List question) :
    ∀ i : Nat, (markCorrect l i).length = l.length := by
  induction l with
  | nil => intro i; rfl
  | cons q qs ih =>
    intro i
    cases i with
    | zero => rfl
    | succ i => simp [markCorrect, ih i]

theorem body_facts (st : Runner) (q : question) :
    (st.body q).i = st.i + 1 ∧ (st.body q).sending = st.sending ∧
    (st.body q).quiz.length = st.quiz.length := by
  unfold Runner.body
  by_cases hm : some q.answer = st.s.Scan.Text.map TrimSpace
  · simp [hm, markCorrect_length]
  · simp [hm]

/-- The loop of `runQuiz` advances by one question per step whatever is read,
also when the input has run out. -/
theorem step_progress (k : Nat) :
    ∀ (st : Runner), st.sending = false → st.i + k ≤ st.quiz.length →
      (Runner.step^[k] st).i = st.i + k ∧ (Runner.step^[k] st).sending = false ∧
      (Runner.step^[k] st).quiz.length = st.quiz.length := by
  induction k with
  | zero => intro st hs _; exact ⟨rfl, hs, rfl⟩
  | succ k ih =>
    intro st hs hi
    have hi' : st.i < st.quiz.length := by omega
    have hget : st.quiz[st.i]? = some st.quiz[st.i] := List.getElem?_eq_getElem hi'
    have hdef : st.step = st.body st.quiz[st.i] := by
      simp only [Runner.step, hget, hs, Bool.false_eq_true, if_false]
    obtain ⟨b1, b2, b3⟩ := body_facts st st.quiz[st.i]
    rw [← hdef] at b1 b2 b3
    obtain ⟨g1, g2, g3⟩ := ih st.step (by rw [b2, hs]) (by rw [b1, b3]; omega)
    rw [Function.iterate_succ_apply]
    exact ⟨by rw [g1, b1]; omega, g2, by rw [g3, b3]⟩

/-- A runner that has gone through all its questions arrives at the send and
changes nothing else. -/
theorem step_at_end (st : Runner) (hs : st.sending = false) (hi : st.i = st.quiz.length) :
    st.step = { st with sending := true } := by
  have hget : st.quiz[st.i]? = none := by
    rw [hi]
    exact List.getElem?_eq_none (Nat.le_refl _)
  simp only [Runner.step, hget, hs, Bool.false_eq_true, if_false]

/-- `runQuiz` run to completion on one response line per question: the counter
has grown by the number of matching positions, every question has been
judged, every prompt printed, and the runner is at its send. -/
theorem runQuiz_spec (quiz : List question) (c0 : Nat) (responses : List String)
    (h : responses.length = quiz.length)
    (hshort : ∀ r ∈ responses, byteLen r.data < MaxScanTokenSize) :
    (runQuiz quiz c0 responses).correctAnswers = c0 + countCorrect quiz responses ∧
    (runQuiz quiz c0 responses).quiz = List.zipWith judge quiz responses ∧
    (runQuiz quiz c0 responses).i = quiz.length ∧
    (runQuiz quiz c0 responses).sending = true ∧
    (runQuiz quiz c0 responses).stdout.length = quiz.length ∧
    (runQuiz quiz c0 responses).s.lines = [] := by
  have ht1 : quiz.take quiz.length = quiz := List.take_length quiz
  have ht2 : responses.take quiz.length = responses := by
    rw [← h]
    exact List.take_length responses
  have hd1 : quiz.drop quiz.length = [] := List.drop_length quiz
  have hd2 : responses.drop quiz.length = [] := by
    rw [← h]
    exact List.drop_length responses
  obtain ⟨g1, g2, g3, g4, g5, g6, _⟩ :=
    step_iterate quiz.length (Runner.init quiz c0 responses) rfl
      (by simp [Runner.init]) (by simp [Runner.init, NewScanner, h]) rfl
      (fun r hr => hshort r (List.mem_of_mem_take hr))
  have e1 : (Runner.step^[quiz.length] (Runner.init quiz c0 responses)).i = quiz.length := by
    simpa [Runner.init] using g1
  have e3 : (Runner.step^[quiz.length] (Runner.init quiz c0 responses)).correctAnswers
      = c0 + countCorrect quiz responses := by
    simpa [Runner.init, NewScanner, ht1, ht2] using g3
  have e4 : (Runner.step^[quiz.length] (Runner.init quiz c0 responses)).quiz
      = List.zipWith judge quiz responses := by
    simpa [Runner.init, NewScanner, ht1, ht2, hd1] using g4
  have e5 : (Runner.step^[quiz.length] (Runner.init quiz c0 responses)).s.lines = [] := by
    simpa [Runner.init, NewScanner, hd2] using g5
  have e6 : (Runner.step^[quiz.length] (Runner.init quiz c0 responses)).stdout.length
      = quiz.length := by
    simpa [Runner.init] using g6
  have hlen : (Runner.step^[quiz.length] (Runner.init quiz c0 responses)).quiz.length
      = quiz.length := by
    rw [e4]
    simp [h]
  have hend := step_at_end _ g2 (by rw [e1, hlen])
  unfold runQuiz
  rw [Function.iterate_succ_apply', hend]
  exact ⟨e3, e4, e1, rfl, e6, e5⟩

/-! ### Lines beyond the scanner's limit -/

theorem foldl_runeLen (l : List Char) :
    ∀ n : Nat, l.foldl (fun n c => n + runeLen c) n = n + byteLen l := by
  induction l with
  | nil => intro n; rfl
  | cons c cs ih =>
    intro n
    show cs.foldl (fun n c => n + runeLen c) (n + runeLen c)
      = n + cs.foldl (fun n c => n + runeLen c) (0 + runeLen c)
    rw [ih (n + runeLen c), ih (0 + runeLen c)]
    omega

theorem byteLen_cons (c : Char) (cs : List Char) :
    byteLen (c :: cs) = runeLen c + byteLen cs := by
  show cs.foldl (fun n c => n + runeLen c) (0 + runeLen c) = _
  rw [foldl_runeLen cs (0 + runeLen c)]
  omega

theorem byteLen_append (l l' : List Char) : byteLen (l ++ l') = byteLen l + byteLen l' := by
  induction l with
  | nil => simp [byteLen]
  | cons c cs ih => rw [List.cons_append, byteLen_cons, byteLen_cons, ih, Nat.add_assoc]

theorem byteLen_replicate_a (n : Nat) : byteLen (List.replicate n 'a') = n := by
  induction n with
  | zero => rfl
  | succ n ih =>
    have h1 : runeLen 'a' = 1 := by decide
    rw [List.replicate_succ, byteLen_cons, ih, h1, Nat.add_comm]

theorem byteLen_longLine (n : Nat) : byteLen (longLine n).data = n := byteLen_replicate_a n

theorem firstBytesFrom_replicate_a (m : Nat) :
    ∀ (n : Nat) (acc : List Char), n ≤ m →
      firstBytesFrom n (List.replicate m 'a') acc
        = some (acc.reverse ++ List.replicate n 'a') := by
  induction m with
  | zero =>
    intro n acc hn
    have : n = 0 := by omega
    subst this
    simp [firstBytesFrom]
  | succ m ih =>
    intro n acc hn
    cases n with
    | zero => simp [List.replicate_succ, firstBytesFrom]
    | succ n =>
      have h1 : runeLen 'a' = 1 := by decide
      have h2 := ih n ('a' :: acc) (by omega)
      simp only [List.replicate_succ, firstBytesFrom, h1]
      simpa using h2

theorem firstBytes_replicate_a (m n : Nat) (h : n ≤ m) :
    firstBytes n (List.replicate m 'a') = some (List.replicate n 'a') := by
  have := firstBytesFrom_replicate_a m n [] h
  simpa [firstBytes] using this

theorem TrimSpace_longLine (n : Nat) : TrimSpace (longLine n) = longLine n := by
  have ha : isSpace 'a' = false := by decide
  have hl : trimLeft (List.replicate n 'a') = List.replicate n 'a' := by
    cases n with
    | zero => rfl
    | succ n => simp [trimLeft, List.replicate_succ, List.dropWhile_cons, ha]
  apply String.ext
  show trimRight (trimLeft (List.replicate n 'a')) = List.replicate n 'a'
  rw [hl]
  unfold trimRight
  rw [List.reverse_replicate]
  have hl' : (List.replicate n 'a').dropWhile isSpace = List.replicate n 'a' := hl
  rw [hl', List.reverse_replicate]

theorem dropCR_longLine (n : Nat) : dropCR (longLine n) = longLine n := by
  unfold dropCR
  rw [if_neg]
  intro h
  obtain ⟨ys, hys⟩ := List.getLast?_eq_some_iff.mp h
  have hmem : '\r' ∈ List.replicate n 'a' := by
    have hd : (longLine n).data = List.replicate n 'a' := rfl
    rw [← hd, hys]
    simp
  exact absurd (List.eq_of_mem_replicate hmem) (by decide)

theorem longLine_ne (n : Nat) (s : String) (h : s.data.length ≠ n) : longLine n ≠ s := by
  intro e
  apply h
  rw [← e]
  simp [longLine]

theorem TrimSpace_empty : TrimSpace "" = "" := by decide

/-- An iteration of the loop of `runQuiz` whose input line is beyond the
scanner's limit: the scan fails, the empty token is compared, and a question
with a non-empty stored answer is left as it was. -/
theorem step_too_long (st : Runner) (q : question) (l : String) (ls : List String)
    (hs : st.sending = false) (hq : st.quiz[st.i]? = some q) (hl : st.s.lines = l :: ls)
    (hst : st.s.state = ScanState.reading) (hlong : MaxScanTokenSize ≤ byteLen l.data)
    (hans : q.answer ≠ "") :
    st.step.i = st.i + 1 ∧ st.step.sending = false ∧
    st.step.correctAnswers = st.correctAnswers ∧ st.step.quiz = st.quiz ∧
    st.step.s.state
      = ScanState.tooLong ((firstBytes MaxScanTokenSize l.data).map (fun t => dropCR ⟨t⟩)) := by
  have hscan : st.s.Scan
      = { st.s with
          token := some "",
          state := ScanState.tooLong
            ((firstBytes MaxScanTokenSize l.data).map (fun t => dropCR ⟨t⟩)) } := by
    simp [Scanner.Scan, hl, hst, Nat.not_lt.mpr hlong]
  have hcond : ¬ (some q.answer = st.s.Scan.Text.map TrimSpace) := by
    simp [hscan, Scanner.Text, TrimSpace_empty, hans]
  have hdef : st.step = st.body q := by
    simp only [Runner.step, hq, hs, Bool.false_eq_true, if_false]
  have hbs : (st.body q).s = st.s.Scan := by simp [Runner.body, hcond]
  rw [hdef]
  refine ⟨?_, ?_, ?_, ?_, ?_⟩
  · simp [Runner.body, hcond]
  · simp [Runner.body, hcond, hs]
  · simp [Runner.body, hcond]
  · simp [Runner.body, hcond]
  · rw [hbs, hscan]

/-- The iteration after a failed scan: the buffered bytes are delivered as the
token, and a question whose stored answer differs from them after trimming is
left as it was. -/
theorem step_buffered (st : Runner) (q : question) (t : Option String)
    (hs : st.sending = false) (hq : st.quiz[st.i]? = some q)
    (hst : st.s.state = ScanState.tooLong t) (hne : some q.answer ≠ t.map TrimSpace) :
    st.step.i = st.i + 1 ∧ st.step.sending = false ∧
    st.step.correctAnswers = st.correctAnswers ∧ st.step.quiz = st.quiz ∧
    st.step.s.state = ScanState.stopped := by
  have hscan : st.s.Scan = { st.s with token := t, state := ScanState.stopped } := by
    simp [Scanner.Scan, hst]
  have hcond : ¬ (some q.answer = st.s.Scan.Text.map TrimSpace) := by
    simpa [hscan, Scanner.Text] using hne
  have hdef : st.step = st.body q := by
    simp only [Runner.step, hq, hs, Bool.false_eq_true, if_false]
  have hbs : (st.body q).s = st.s.Scan := by simp [Runner.body, hcond]
  rw [hdef]
  refine ⟨?_, ?_, ?_, ?_, ?_⟩
  · simp [Runner.body, hcond]
  · simp [Runner.body, hcond, hs]
  · simp [Runner.body, hcond]
  · simp [Runner.body, hcond]
  · rw [hbs, hscan]

theorem step_at_end_correctAnswers (st : Runner) (hs : st.sending = false)
    (hi : st.i = st.quiz.length) : st.step.correctAnswers = st.correctAnswers := by
  rw [step_at_end st hs hi]

theorem runQuiz_two (q1 q2 : question) (c0 : Nat) (stdin : List String) :
    runQuiz [q1, q2] c0 stdin = (Runner.init [q1, q2] c0 stdin).step.step.step := rfl

theorem iterate_step_two (st : Runner) : Runner.step^[2] st = st.step.step := rfl

/-- The bytes a scanner holds after failing on a line of `n` letters `a`. -/
theorem buffered_longLine (n : Nat) (h : MaxScanTokenSize ≤ n) :
    (firstBytes MaxScanTokenSize (longLine n).data).map (fun t => dropCR ⟨t⟩)
      = some (longLine MaxScanTokenSize) := by
  have hd : (longLine n).data = List.replicate n 'a' := rfl
  rw [hd, firstBytes_replicate_a n MaxScanTokenSize h]
  exact congrArg some (dropCR_longLine MaxScanTokenSize)

/-- `runQuiz` on a single question with a non-empty stored answer and a
response line beyond the scanner's limit leaves the counter as it was. -/
theorem runQuiz_single_too_long (q : question) (c0 : Nat) (r : String)
    (hlong : MaxScanTokenSize ≤ byteLen r.data) (hans : q.answer ≠ "") :
    (runQuiz [q] c0 [r]).correctAnswers = c0 ∧ (runQuiz [q] c0 [r]).quiz = [q] := by
  obtain ⟨h1, h2, h3, h4, _⟩ :=
    step_too_long (Runner.init [q] c0 [r]) q r [] rfl rfl rfl rfl hlong hans
  have hend := step_at_end (Runner.init [q] c0 [r]).step h2 (by rw [h1, h4]; rfl)
  have hrun : runQuiz [q] c0 [r] = (Runner.init [q] c0 [r]).step.step := rfl
  rw [hrun, hend]
  exact ⟨h3, h4⟩

/-- A response line beyond the scanner's limit is judged wrong against every
answer field that is not blank. -/
theorem judgedCorrect_too_long (p a r : String) (hlong : MaxScanTokenSize ≤ byteLen r.data)
    (ha : TrimSpace a ≠ "") : judgedCorrect p a r = false := by
  have hc := createQuiz_pairs [(p, a)]
  simp only [recordsOf, List.map_cons, List.map_nil] at hc
  obtain ⟨g1, _⟩ := runQuiz_single_too_long (questionOf p a) 0 r hlong ha
  unfold judgedCorrect
  rw [hc]
  simp [g1]

/-- The verdict on a single question built from a CSV answer field. -/
theorem judgedCorrect_iff (p a r : String) (hr : byteLen r.data < MaxScanTokenSize) :
    judgedCorrect p a r = true ↔ TrimSpace a = TrimSpace r := by
  have hc := createQuiz_pairs [(p, a)]
  simp only [recordsOf, List.map_cons, List.map_nil] at hc
  obtain ⟨g1, g2, _⟩ := runQuiz_spec [questionOf p a] 0 [r] rfl
    (fun x hx => by rw [List.mem_singleton.mp hx]; exact hr)
  unfold judgedCorrect
  rw [hc]
  simp only [g1, g2]
  by_cases hm : TrimSpace a = TrimSpace r
  · simp [countCorrect, judge, questionOf, hm]
  · simp [countCorrect, judge, questionOf, hm]

/-! ## Lemmas on the race -/

theorem exec_append (s : Sys) (l l' : List Event) : exec s (l ++ l') = exec (exec s l) l' := by
  simp [exec, List.foldl_append]

theorem exec_singleton (s : Sys) (e : Event) : exec s [e] = s.step e := rfl

theorem exec_runner (k : Nat) :
    ∀ s : Sys, s.returned = false →
      exec s (List.replicate k Event.runner) = { s with runner := Runner.step^[k] s.runner } := by
  induction k with
  | zero => intro s _; rfl
  | succ k ih =>
    intro s hs
    have h1 : s.step Event.runner = { s with runner := s.runner.step } := by
      simp [Sys.step, hs]
    rw [List.replicate_succ]
    show exec (s.step Event.runner) (List.replicate k Event.runner) = _
    rw [h1, ih { s with runner := s.runner.step } hs]
    simp [Function.iterate_succ_apply]

theorem selectBody_ret (c : SelectCase) (a n : Nat) : (selectBody c a n).2 = Ctl.ret := by
  cases c <;> rfl

theorem fire_eq (s : Sys) (c : SelectCase) :
    s.fire c =
      { s with
        mainOut := s.mainOut ++ [(selectBody c s.runner.correctAnswers s.runner.quiz.length).1],
        selects := s.selects + 1, returned := true } := by
  cases c <;> rfl

/-- After `main` has returned no event changes anything. -/
theorem exec_returned (l : List Event) : ∀ s : Sys, s.returned = true → exec s l = s := by
  induction l with
  | nil => intro s _; rfl
  | cons e l ih =>
    intro s hs
    have h1 : s.step e = s := by simp [Sys.step, hs]
    show exec (s.step e) l = s
    rw [h1]
    exact ih s hs

/-- Along every schedule `main` has printed as many reports as its `select`
has fired, which is once if it has returned and never otherwise. -/
theorem exec_invariant (l : List Event) :
    ∀ s : Sys, (s.mainOut.length = s.selects ∧ s.selects = if s.returned then 1 else 0) →
      ((exec s l).mainOut.length = (exec s l).selects ∧
        (exec s l).selects = if (exec s l).returned then 1 else 0) := by
  induction l with
  | nil => intro s h; exact h
  | cons e l ih =>
    intro s h
    show (exec (s.step e) l).mainOut.length = _ ∧ _
    apply ih
    by_cases hr : s.returned = true
    · have h1 : s.step e = s := by simp [Sys.step, hr]
      rw [h1]
      exact h
    · have hr' : s.returned = false := by simpa using hr
      obtain ⟨h1, h2⟩ := h
      rw [hr'] at h2
      simp only [Bool.false_eq_true, if_false] at h2
      cases e with
      | runner => simp [Sys.step, hr', h1, h2]
      | deadline =>
        have e : s.step Event.deadline = s.fire SelectCase.timeAfter := by
          simp [Sys.step, hr']
        rw [e, fire_eq]
        simp [h1, h2]
      | recv =>
        by_cases hsend : s.runner.sending = true
        · have e : s.step Event.recv = s.fire SelectCase.done := by
            simp [Sys.step, hr', hsend]
          rw [e, fire_eq]
          simp [h1, h2]
        · simp [Sys.step, hr', hsend, h1, h2]

/-- The text of the two reports. -/
theorem Sprintf_report (c n : Nat) :
    Sprintf "You scored %v out of %v.\n" [Arg.int c, Arg.int n]
      = "You scored " ++ Nat.repr c ++ " out of " ++ Nat.repr n ++ ".\n" ∧
    Sprintf "\nYou scored %v out of %v.\n" [Arg.int c, Arg.int n]
      = "\nYou scored " ++ Nat.repr c ++ " out of " ++ Nat.repr n ++ ".\n" := by
  constructor <;>
  · apply String.ext
    simp [Sprintf, sprintfChars, Arg.format]

theorem step_deadline_returned (s : Sys) : (s.step Event.deadline).returned = true := by
  by_cases hr : s.returned = true
  · simp [Sys.step, hr]
  · have hr' : s.returned = false := by simpa using hr
    have e : s.step Event.deadline = s.fire SelectCase.timeAfter := by
      simp [Sys.step, hr']
    rw [e, fire_eq]

theorem init_invariant (quiz : List question) (stdin : List String) :
    (Sys.init quiz stdin).mainOut.length = (Sys.init quiz stdin).selects ∧
    (Sys.init quiz stdin).selects = if (Sys.init quiz stdin).returned then 1 else 0 := by
  simp [Sys.init]

/-- What `main` prints when the deadline fires after `k` steps of the runner:
the counter and the length of the slice as the runner has them then. -/
theorem exec_deadlineAfter_mainOut (quiz : List question) (responses : List String) (k : Nat) :
    (exec (Sys.init quiz responses) (deadlineAfter k)).mainOut
      = [Sprintf "\nYou scored %v out of %v.\n"
          [Arg.int (Runner.step^[k] (Runner.init quiz 0 responses)).correctAnswers,
           Arg.int (Runner.step^[k] (Runner.init quiz 0 responses)).quiz.length]] := by
  have hrun := exec_runner k (Sys.init quiz responses) rfl
  have hstep : ∀ s : Sys, s.returned = false →
      s.step Event.deadline = s.fire SelectCase.timeAfter := by
    intro s hs
    simp [Sys.step, hs]
  unfold deadlineAfter
  rw [exec_append, hrun, exec_singleton, hstep _ rfl, fire_eq]
  simp only [Sys.init, List.nil_append, selectBody]

/-- The state in which the deadline finds the race after `k` steps of the
runner, and what `main` then prints. -/
theorem exec_deadlineAfter (quiz : List question) (responses : List String) (k : Nat)
    (hk : k ≤ quiz.length) (hr : k ≤ responses.length)
    (hshort : ∀ r ∈ responses.take k, byteLen r.data < MaxScanTokenSize) :
    (exec (Sys.init quiz responses) (deadlineAfter k)).returned = true ∧
    (exec (Sys.init quiz responses) (deadlineAfter k)).runner.i = k ∧
    (exec (Sys.init quiz responses) (deadlineAfter k)).mainOut
      = [Sprintf "\nYou scored %v out of %v.\n"
          [Arg.int (countCorrect (quiz.take k) (responses.take k)), Arg.int quiz.length]] := by
  obtain ⟨g1, _, g3, _, _, _, _⟩ :=
    step_iterate k (Runner.init quiz 0 responses) rfl
      (by simpa [Runner.init] using hk) (by simpa [Runner.init, NewScanner] using hr) rfl
      (by simpa [Runner.init, NewScanner] using hshort)
  obtain ⟨_, _, p3⟩ :=
    step_progress k (Runner.init quiz 0 responses) rfl (by simpa [Runner.init] using hk)
  have e1 : (Runner.step^[k] (Runner.init quiz 0 responses)).i = k := by
    simpa [Runner.init] using g1
  have e3 : (Runner.step^[k] (Runner.init quiz 0 responses)).correctAnswers
      = countCorrect (quiz.take k) (responses.take k) := by
    simpa [Runner.init, NewScanner] using g3
  have e4 : (Runner.step^[k] (Runner.init quiz 0 responses)).quiz.length = quiz.length := by
    simpa [Runner.init] using p3
  have hrun := exec_runner k (Sys.init quiz responses) rfl
  have hstep : ∀ s : Sys, s.returned = false →
      s.step Event.deadline = s.fire SelectCase.timeAfter := by
    intro s hs
    simp [Sys.step, hs]
  unfold deadlineAfter
  rw [exec_append, hrun, exec_singleton, hstep _ rfl, fire_eq]
  refine ⟨rfl, e1, ?_⟩
  simp only [Sys.init, List.nil_append, selectBody, e3, e4]

/-! ## The claims -/

/-- C1, the claim fails: with the stored answers `x` and `b`, a first response
line of 70000 letters and the second response line `b`, one position (the
second) has its trimmed response equal to the stored answer, but `runQuiz`
ends with tally 0: the scan of the first line fails and the empty token is
judged, and the second question is judged against the buffered first 65536
bytes of that line. -/
theorem runQuiz_long_line_shifts_responses :
    [longLine 70000, "b"].length = twoQuestions.length ∧
    countCorrect twoQuestions [longLine 70000, "b"] = 1 ∧
    (runQuiz twoQuestions 0 [longLine 70000, "b"]).correctAnswers = 0 := by
  have hmax : MaxScanTokenSize ≤ 70000 := by decide
  have hx : ("x" : String) ≠ longLine 70000 := (longLine_ne 70000 "x" (by decide)).symm
  have hb : ("b" : String) ≠ longLine MaxScanTokenSize :=
    (longLine_ne MaxScanTokenSize "b" (by decide)).symm
  have hbb : TrimSpace "b" = "b" := by decide
  refine ⟨rfl, ?_, ?_⟩
  · simp [countCorrect, twoQuestions, TrimSpace_longLine, hx, hbb]
  · obtain ⟨a1, a2, a3, a4, a5⟩ :=
      step_too_long (Runner.init twoQuestions 0 [longLine 70000, "b"])
        { question := "q1", answer := "x", correctResponseGiven := false }
        (longLine 70000) ["b"] rfl rfl rfl rfl
        (by rw [byteLen_longLine]; exact hmax) (by decide)
    rw [buffered_longLine 70000 hmax] at a5
    obtain ⟨b1, b2, b3, b4, _⟩ :=
      step_buffered (Runner.init twoQuestions 0 [longLine 70000, "b"]).step
        { question := "q2", answer := "b", correctResponseGiven := false }
        (some (longLine MaxScanTokenSize)) a2 (by rw [a1, a4]; rfl) a5
        (by simpa [TrimSpace_longLine] using hb)
    have hlen : (Runner.init twoQuestions 0 [longLine 70000, "b"]).step.step.i
        = (Runner.init twoQuestions 0 [longLine 70000, "b"]).step.step.quiz.length := by
      rw [b1, b4, a1, a4]
      rfl
    have hrun : runQuiz twoQuestions 0 [longLine 70000, "b"]
        = (Runner.init twoQuestions 0 [longLine 70000, "b"]).step.step.step :=
      runQuiz_two _ _ 0 _
    rw [hrun, step_at_end_correctAnswers _ b2 hlen, b3, a3]
    rfl

/-- C1 as amended: for every quiz set and every sequence of response lines,
one per question and each shorter than 65536 bytes (the scanner's token
limit), `runQuiz` run to completion from a tally of 0 ends with the tally
equal to the number of positions at which the trimmed response equals the
stored answer of the question there. A wrong answer does not stop the run:
all questions are gone through, one prompt is printed for each, each question
carries its verdict, and the completion signal is reached. -/
theorem runQuiz_tally_counts_matches (quiz : List question) (responses : List String)
    (h : responses.length = quiz.length)
    (hshort : ∀ r ∈ responses, byteLen r.data < MaxScanTokenSize) :
    (runQuiz quiz 0 responses).correctAnswers = countCorrect quiz responses ∧
    (runQuiz quiz 0 responses).quiz = List.zipWith judge quiz responses ∧
    (runQuiz quiz 0 responses).i = quiz.length ∧
    (runQuiz quiz 0 responses).stdout.length = quiz.length ∧
    (runQuiz quiz 0 responses).sending = true := by
  obtain ⟨g1, g2, g3, g4, g5, _⟩ := runQuiz_spec quiz 0 responses h hshort
  exact ⟨by simpa using g1, g2, g3, g5, g4⟩

/-- Witness of C1 as amended: the scenario rows give the scenario quiz set,
and the responses `4` and ` paris` give tally 1 out of 2. -/
theorem runQuiz_tally_counts_matches_witness :
    createQuiz (NewReader scenarioRows) = Outcome.returned scenarioQuiz [] ∧
    ["4", " paris"].length = scenarioQuiz.length ∧
    (∀ r ∈ ["4", " paris"], byteLen r.data < MaxScanTokenSize) ∧
    (runQuiz scenarioQuiz 0 ["4", " paris"]).correctAnswers = 1 ∧
    scenarioQuiz.length = 2 :=
  ⟨by decide, rfl, by decide,
   (runQuiz_tally_counts_matches scenarioQuiz ["4", " paris"] rfl (by decide)).1.trans
     (by decide), rfl⟩

/-- C2, the claim fails: the answer field and the response line both being the
same 70000 letters, the trimmed texts are equal but the question is judged
wrong; and a response of 65535 letters that is judged correct is judged wrong
once a blank is added after it. -/
theorem verdict_fails_on_long_line :
    TrimSpace (longLine 70000) = TrimSpace (longLine 70000) ∧
    judgedCorrect "q" (longLine 70000) (longLine 70000) = false ∧
    isSpace ' ' = true ∧
    judgedCorrect "q" (longLine 65535) (longLine 65535) = true ∧
    judgedCorrect "q" (longLine 65535) (longLine 65535 ++ " ") = false := by
  have hne : ∀ n : Nat, n ≠ 0 → TrimSpace (longLine n) ≠ "" := by
    intro n hn
    rw [TrimSpace_longLine]
    exact longLine_ne n "" (by simpa using hn.symm)
  refine ⟨rfl, ?_, by decide, ?_, ?_⟩
  · exact judgedCorrect_too_long "q" (longLine 70000) (longLine 70000)
      (by rw [byteLen_longLine]; decide) (hne 70000 (by decide))
  · exact (judgedCorrect_iff "q" (longLine 65535) (longLine 65535)
      (by rw [byteLen_longLine]; decide)).mpr rfl
  · apply judgedCorrect_too_long "q" (longLine 65535) (longLine 65535 ++ " ") _
      (hne 65535 (by decide))
    have hb : byteLen [' '] = 1 := by decide
    rw [String.data_append]
    show MaxScanTokenSize ≤ byteLen ((longLine 65535).data ++ [' '])
    rw [byteLen_append, byteLen_longLine, hb]
    decide

/-- C2 as amended: for a response line `r` shorter than 65536 bytes, the
question `createQuiz` builds from the answer field `a` is judged correct by
`runQuiz` on `r` exactly when `TrimSpace a` and `TrimSpace r` are the same
string. So white space `ws`, `ws'` put around the answer field, or around the
response as long as the line stays shorter than 65536 bytes, does not change
the verdict, while a change of letter case, or of white space inside the
text, changes it for some inputs. -/
theorem verdict_iff_trimmed_equal (p a r ws ws' : String)
    (hws : ∀ c ∈ ws.data, isSpace c = true) (hws' : ∀ c ∈ ws'.data, isSpace c = true)
    (hr : byteLen r.data < MaxScanTokenSize)
    (hpad : byteLen (ws ++ r ++ ws').data < MaxScanTokenSize) :
    (judgedCorrect p a r = true ↔ TrimSpace a = TrimSpace r) ∧
    judgedCorrect p (ws ++ a ++ ws') r = judgedCorrect p a r ∧
    judgedCorrect p a (ws ++ r ++ ws') = judgedCorrect p a r ∧
    (∃ a1 r1 r2 : String, r1.data.map Char.toLower = r2.data.map Char.toLower ∧
      judgedCorrect p a1 r1 = true ∧ judgedCorrect p a1 r2 = false) ∧
    (∃ a1 x y : String, TrimSpace x = x ∧ x ≠ "" ∧ TrimSpace y = y ∧ y ≠ "" ∧
      judgedCorrect p a1 (x ++ " " ++ y) = true ∧ judgedCorrect p a1 (x ++ y) = false) := by
  refine ⟨judgedCorrect_iff p a r hr, ?_, ?_, ?_, ?_⟩
  · rw [Bool.eq_iff_iff, judgedCorrect_iff _ _ _ hr, judgedCorrect_iff _ _ _ hr,
      TrimSpace_pad ws a ws' hws hws']
  · rw [Bool.eq_iff_iff, judgedCorrect_iff _ _ _ hpad, judgedCorrect_iff _ _ _ hr,
      TrimSpace_pad ws r ws' hws hws']
  · refine ⟨"Paris", "Paris", "paris", by decide, ?_, ?_⟩
    · rw [judgedCorrect_iff _ _ _ (by decide)]
    · rw [← Bool.not_eq_true, judgedCorrect_iff _ _ _ (by decide)]
      decide
  · refine ⟨"New York", "New", "York", by decide, by decide, by decide, by decide, ?_, ?_⟩
    · rw [judgedCorrect_iff _ _ _ (by decide)]
      decide
    · rw [← Bool.not_eq_true, judgedCorrect_iff _ _ _ (by decide)]
      decide

/-- Witness of C2 as amended: the answer field ` Paris ` against the response
line `Paris` followed by a tab. -/
theorem verdict_iff_trimmed_equal_witness :
    byteLen ("Paris\t" : String).data < MaxScanTokenSize ∧
    byteLen (" " ++ "Paris\t" ++ " " : String).data < MaxScanTokenSize ∧
    judgedCorrect "capital of France" (" " ++ "Paris" ++ " ") "Paris\t" = true ∧
    judgedCorrect "capital of France" "Paris" "Paris\t" = true :=
  have hw := verdict_iff_trimmed_equal "capital of France" "Paris" "Paris\t" " " " "
    (by decide) (by decide) (by decide) (by decide)
  ⟨by decide, by decide, hw.2.1.trans (hw.1.mpr (by decide)), hw.1.mpr (by decide)⟩

/-- C3, the claim fails: with the stored answers `x`, `b` and `c`, a first
response line of 70000 letters and the further lines `b` and `c`, one of the
first two positions has its trimmed response equal to the stored answer, but
when the deadline fires after the runner has judged two responses the report
says 0 out of 3. -/
theorem deadline_report_after_long_line :
    2 < threeQuestions.length ∧ 2 ≤ [longLine 70000, "b", "c"].length ∧
    countCorrect (threeQuestions.take 2) ([longLine 70000, "b", "c"].take 2) = 1 ∧
    (exec (Sys.init threeQuestions [longLine 70000, "b", "c"]) (deadlineAfter 2)).mainOut
      = ["\nYou scored 0 out of 3.\n"] := by
  have hmax : MaxScanTokenSize ≤ 70000 := by decide
  have hx : ("x" : String) ≠ longLine 70000 := (longLine_ne 70000 "x" (by decide)).symm
  have hb : ("b" : String) ≠ longLine MaxScanTokenSize :=
    (longLine_ne MaxScanTokenSize "b" (by decide)).symm
  have hbb : TrimSpace "b" = "b" := by decide
  refine ⟨by decide, by decide, ?_, ?_⟩
  · simp [countCorrect, threeQuestions, TrimSpace_longLine, hx, hbb]
  · obtain ⟨a1, a2, a3, a4, a5⟩ :=
      step_too_long (Runner.init threeQuestions 0 [longLine 70000, "b", "c"])
        { question := "q1", answer := "x", correctResponseGiven := false }
        (longLine 70000) ["b", "c"] rfl rfl rfl rfl
        (by rw [byteLen_longLine]; exact hmax) (by decide)
    rw [buffered_longLine 70000 hmax] at a5
    obtain ⟨_, _, b3, b4, _⟩ :=
      step_buffered (Runner.init threeQuestions 0 [longLine 70000, "b", "c"]).step
        { question := "q2", answer := "b", correctResponseGiven := false }
        (some (longLine MaxScanTokenSize)) a2 (by rw [a1, a4]; rfl) a5
        (by simpa [TrimSpace_longLine] using hb)
    have hrun : Runner.step^[2] (Runner.init threeQuestions 0 [longLine 70000, "b", "c"])
        = (Runner.init threeQuestions 0 [longLine 70000, "b", "c"]).step.step :=
      iterate_step_two _
    rw [exec_deadlineAfter_mainOut, hrun, b3, b4, a3, a4]
    decide

/-- C3 as amended: for every quiz set of N questions, every response sequence
and every k < N such that the first k response lines are each shorter than
65536 bytes, when the deadline fires after the runner has judged exactly the
first k responses, `main` returns having printed one report whose tally is
the number of correct answers among the first k questions and whose total is
N. The report is the same for any other quiz set of N questions and responses
that agree on the first k; for k = 0 the tally is 0 and the total is N. -/
theorem deadline_report_counts_first_k (quiz : List question) (responses : List String)
    (k : Nat) (hk : k < quiz.length) (hr : k ≤ responses.length)
    (hshort : ∀ r ∈ responses.take k, byteLen r.data < MaxScanTokenSize) :
    (exec (Sys.init quiz responses) (deadlineAfter k)).returned = true ∧
    (exec (Sys.init quiz responses) (deadlineAfter k)).runner.i = k ∧
    (exec (Sys.init quiz responses) (deadlineAfter k)).mainOut
      = [Sprintf "\nYou scored %v out of %v.\n"
          [Arg.int (countCorrect (quiz.take k) (responses.take k)), Arg.int quiz.length]] ∧
    (∀ (quiz' : List question) (responses' : List String),
      quiz'.length = quiz.length → quiz'.take k = quiz.take k →
      responses'.take k = responses.take k →
      (exec (Sys.init quiz' responses') (deadlineAfter k)).mainOut
        = (exec (Sys.init quiz responses) (deadlineAfter k)).mainOut) ∧
    (exec (Sys.init quiz responses) (deadlineAfter 0)).mainOut
      = [Sprintf "\nYou scored %v out of %v.\n" [Arg.int 0, Arg.int quiz.length]] := by
  obtain ⟨h1, h2, h3⟩ := exec_deadlineAfter quiz responses k (Nat.le_of_lt hk) hr hshort
  refine ⟨h1, h2, h3, ?_, ?_⟩
  · intro quiz' responses' hlen hq hresp
    have hr' : k ≤ responses'.length := by
      have := congrArg List.length hresp
      simp only [List.length_take] at this
      omega
    obtain ⟨_, _, h3'⟩ :=
      exec_deadlineAfter quiz' responses' k (by omega) hr' (by rw [hresp]; exact hshort)
    rw [h3, h3', hq, hresp, hlen]
  · obtain ⟨_, _, h0⟩ :=
      exec_deadlineAfter quiz responses 0 (Nat.zero_le _) (Nat.zero_le _) (by simp)
    simpa [countCorrect] using h0

/-- Witness of C3 as amended: in the scenario the deadline fires after the
first of the two responses has been judged. -/
theorem deadline_report_counts_first_k_witness :
    1 < scenarioQuiz.length ∧ 1 ≤ ["4", " paris"].length ∧
    (∀ r ∈ ["4", " paris"].take 1, byteLen r.data < MaxScanTokenSize) ∧
    (exec (Sys.init scenarioQuiz ["4", " paris"]) (deadlineAfter 1)).mainOut
      = ["\nYou scored 1 out of 2.\n"] :=
  ⟨by decide, by decide, by decide,
   (deadline_report_counts_first_k scenarioQuiz ["4", " paris"] 1 (by decide)
      (by decide) (by decide)).2.2.1.trans (by decide)⟩

/-- C4: on every input whose rows all have exactly two fields `createQuiz`
returns a quiz set with as many questions as there are rows, the i-th
question being the one of the i-th row; the number of rows is arbitrary
(the capacity of 100 plays no role). -/
theorem createQuiz_length_and_order (rows : List (List String))
    (h : ∀ row ∈ rows, row.length = 2) :
    ∃ quiz : List question,
      createQuiz (NewReader rows) = Outcome.returned quiz [] ∧
      quiz.length = rows.length ∧
      ∀ i : Nat, i < rows.length →
        ∃ p a : String, rows[i]? = some [p, a] ∧ quiz[i]? = some (questionOf p a) := by
  obtain ⟨pairs, hp⟩ := exists_pairs_of_two_fields rows h
  subst hp
  refine ⟨_, createQuiz_pairs pairs, by simp [recordsOf], ?_⟩
  intro i hi
  have hi' : i < pairs.length := by simpa [recordsOf] using hi
  refine ⟨pairs[i].1, pairs[i].2, ?_, ?_⟩
  · simp [recordsOf, List.getElem?_eq_getElem hi']
  · simp [List.getElem?_eq_getElem hi']

/-- Witness of C4: an input of 101 two-field rows, one more than the
pre-allocated capacity. -/
theorem createQuiz_length_and_order_witness :
    (∀ row ∈ List.replicate 101 ["2+2", " 4"], row.length = 2) ∧
    ∃ quiz : List question,
      createQuiz (NewReader (List.replicate 101 ["2+2", " 4"])) = Outcome.returned quiz [] ∧
      quiz.length = 101 ∧ quiz[100]? = some (questionOf "2+2" " 4") :=
  have hrows : ∀ row ∈ List.replicate 101 ["2+2", " 4"], row.length = 2 :=
    fun row hrow => by rw [List.eq_of_mem_replicate hrow]; rfl
  ⟨hrows,
   match createQuiz_length_and_order (List.replicate 101 ["2+2", " 4"]) hrows with
   | ⟨quiz, h1, h2, h3⟩ =>
     ⟨quiz, h1, by simpa using h2, by
       obtain ⟨p, a, e1, e2⟩ := h3 100 (by simp)
       have e : "2+2" = p ∧ " 4" = a := by simpa using e1
       rw [e2, ← e.1, ← e.2]⟩⟩

/-- C5: a two-field row (p, a), read by `createQuiz` among other two-field
rows, yields at its position the question with prompt exactly `p`, with
answer `a` stripped of its leading and trailing white space (the field is
the answer between two runs of white space, and the answer neither starts
nor ends with white space), and with the flag false. -/
theorem createQuiz_question_fields (before after : List (String × String)) (p a : String) :
    ∃ (quiz : List question) (q : question),
      createQuiz (NewReader (recordsOf (before ++ (p, a) :: after)))
        = Outcome.returned quiz [] ∧
      quiz[before.length]? = some q ∧
      q.question = p ∧ q.answer = TrimSpace a ∧ q.correctResponseGiven = false ∧
      ∃ pre post : List Char,
        a.data = pre ++ q.answer.data ++ post ∧
        (∀ c ∈ pre, isSpace c = true) ∧ (∀ c ∈ post, isSpace c = true) ∧
        (∀ c, q.answer.data.head? = some c → isSpace c = false) ∧
        (∀ c, q.answer.data.getLast? = some c → isSpace c = false) := by
  refine ⟨_, questionOf p a, createQuiz_pairs _, ?_, rfl, rfl, rfl, TrimSpace_spec a⟩
  rw [List.map_append, List.map_cons, List.getElem?_append_right (by simp)]
  simp

/-- C6 (behaviour of the code on inputs with a field count other than two):
a file whose only row has three fields is accepted and yields a question,
a file whose only row has one field makes `createQuiz` panic on `record[1]`,
and a two-field row followed by a one-field row ends in `log.Fatal` with the
wrapped error, the diagnostic line not being printed. -/
theorem createQuiz_wrong_field_counts :
    createQuiz (NewReader [["a", "b", "c"]]) = Outcome.returned [questionOf "a" "b"] [] ∧
    createQuiz (NewReader [["a"]]) = Outcome.indexPanic [] 1 1 ∧
    createQuiz (NewReader [["a", "b"], ["c"]])
      = Outcome.fatal [] (error.ParseError 2 error.ErrFieldCount) := by
  decide

/-- C7, the claim fails: with one question whose stored answer is 70000
letters and the response line being the same 70000 letters, every response
equals the stored answer after trimming, but `runQuiz` leaves the tally at 0,
not at the number of questions, 1. -/
theorem runQuiz_all_correct_fails_on_long_line :
    [longLine 70000].length = [questionOf "q" (longLine 70000)].length ∧
    (∀ qr ∈ [questionOf "q" (longLine 70000)].zip [longLine 70000],
      TrimSpace qr.2 = qr.1.answer) ∧
    (runQuiz [questionOf "q" (longLine 70000)] 0 [longLine 70000]).correctAnswers = 0 ∧
    [questionOf "q" (longLine 70000)].length = 1 := by
  refine ⟨rfl, ?_, ?_, rfl⟩
  · intro qr hqr
    have : qr = (questionOf "q" (longLine 70000), longLine 70000) := by simpa using hqr
    rw [this]
    rfl
  · refine (runQuiz_single_too_long (questionOf "q" (longLine 70000)) 0 (longLine 70000)
      (by rw [byteLen_longLine]; decide) ?_).1
    show TrimSpace (longLine 70000) ≠ ""
    rw [TrimSpace_longLine]
    exact longLine_ne 70000 "" (by decide)

/-- C7 as amended: when there is one response line per question, each shorter
than 65536 bytes, and every response, after trimming, equals the stored
answer of its question, `runQuiz` run to completion from a tally of 0 leaves
the tally at the number of questions. -/
theorem runQuiz_all_correct (quiz : List question) (responses : List String)
    (h : responses.length = quiz.length)
    (hshort : ∀ r ∈ responses, byteLen r.data < MaxScanTokenSize)
    (hall : ∀ qr ∈ quiz.zip responses, TrimSpace qr.2 = qr.1.answer) :
    (runQuiz quiz 0 responses).correctAnswers = quiz.length := by
  obtain ⟨g1, _⟩ := runQuiz_spec quiz 0 responses h hshort
  rw [g1, Nat.zero_add]
  have hc : countCorrect quiz responses = (quiz.zip responses).length := by
    unfold countCorrect
    rw [List.countP_eq_length]
    intro qr hqr
    simpa using (hall qr hqr).symm
  rw [hc]
  simp [h]

/-- Witness of C7 as amended: the scenario quiz with the responses `4` and
` Paris` followed by a carriage return. -/
theorem runQuiz_all_correct_witness :
    ["4", " Paris\r"].length = scenarioQuiz.length ∧
    (∀ r ∈ ["4", " Paris\r"], byteLen r.data < MaxScanTokenSize) ∧
    (∀ qr ∈ scenarioQuiz.zip ["4", " Paris\r"], TrimSpace qr.2 = qr.1.answer) ∧
    (runQuiz scenarioQuiz 0 ["4", " Paris\r"]).correctAnswers = 2 :=
  ⟨rfl, by decide, by decide,
   runQuiz_all_correct scenarioQuiz ["4", " Paris\r"] rfl (by decide) (by decide)⟩

/-- C8, the claim fails: in the scenario, when the deadline fires before any
response is judged, what `main` prints is the report text preceded by a
newline, which is neither the bare report text nor what the completion case
prints for the same tally and total. -/
theorem timeout_report_has_leading_newline :
    (exec (Sys.init scenarioQuiz ["4", " paris"]) (deadlineAfter 0)).mainOut
      = ["\nYou scored 0 out of 2.\n"] ∧
    (selectBody SelectCase.timeAfter 0 2).1 ≠ "You scored 0 out of 2.\n" ∧
    (selectBody SelectCase.timeAfter 0 2).1 ≠ (selectBody SelectCase.done 0 2).1 := by
  decide

/-- C8 as amended: for every tally c and total n the report printed when the
runner's completion signal is received is exactly `You scored c out of n.`
followed by one newline, and the report printed on timeout is that same text
preceded by one newline; both cases return from `main`. -/
theorem score_report_text (c n : Nat) :
    (selectBody SelectCase.done c n).1
      = "You scored " ++ Nat.repr c ++ " out of " ++ Nat.repr n ++ ".\n" ∧
    (selectBody SelectCase.timeAfter c n).1 = "\n" ++ (selectBody SelectCase.done c n).1 ∧
    (selectBody SelectCase.done c n).2 = Ctl.ret ∧
    (selectBody SelectCase.timeAfter c n).2 = Ctl.ret := by
  obtain ⟨h1, h2⟩ := Sprintf_report c n
  refine ⟨h1, ?_, rfl, rfl⟩
  show Sprintf "\nYou scored %v out of %v.\n" [Arg.int c, Arg.int n]
    = "\n" ++ Sprintf "You scored %v out of %v.\n" [Arg.int c, Arg.int n]
  rw [h1, h2]
  apply String.ext
  simp

/-- C9: both cases of the `select` return from `main`. Along every schedule
`main` has printed as many reports as its `select` has fired, at most one,
and exactly one once it has returned. In every run in which the deadline
fires, and in every run in which the runner finishes and its signal is
received, `main` has returned after a single round of the loop with exactly
one report printed, whatever events come before or after. -/
theorem race_prints_exactly_one_report (quiz : List question) (stdin : List String)
    (pre post : List Event) :
    (∀ (c : SelectCase) (a n : Nat), (selectBody c a n).2 = Ctl.ret) ∧
    ((exec (Sys.init quiz stdin) pre).mainOut.length = (exec (Sys.init quiz stdin) pre).selects ∧
      (exec (Sys.init quiz stdin) pre).selects
        = if (exec (Sys.init quiz stdin) pre).returned then 1 else 0) ∧
    ((exec (Sys.init quiz stdin) (pre ++ [Event.deadline] ++ post)).returned = true ∧
      (exec (Sys.init quiz stdin) (pre ++ [Event.deadline] ++ post)).selects = 1 ∧
      (exec (Sys.init quiz stdin) (pre ++ [Event.deadline] ++ post)).mainOut.length = 1) ∧
    ((exec (Sys.init quiz stdin) (completion quiz.length ++ post)).returned = true ∧
      (exec (Sys.init quiz stdin) (completion quiz.length ++ post)).selects = 1 ∧
      (exec (Sys.init quiz stdin) (completion quiz.length ++ post)).mainOut.length = 1) := by
  have hinv : ∀ l : List Event,
      (exec (Sys.init quiz stdin) l).mainOut.length = (exec (Sys.init quiz stdin) l).selects ∧
      (exec (Sys.init quiz stdin) l).selects
        = if (exec (Sys.init quiz stdin) l).returned then 1 else 0 :=
    fun l => exec_invariant l _ (init_invariant quiz stdin)
  have hone : ∀ l : List Event, (exec (Sys.init quiz stdin) l).returned = true →
      (exec (Sys.init quiz stdin) l).returned = true ∧
      (exec (Sys.init quiz stdin) l).selects = 1 ∧
      (exec (Sys.init quiz stdin) l).mainOut.length = 1 := by
    intro l hl
    obtain ⟨i1, i2⟩ := hinv l
    rw [hl] at i2
    simp only [if_true] at i2
    exact ⟨hl, i2, by rw [i1, i2]⟩
  refine ⟨selectBody_ret, hinv pre, ?_, ?_⟩
  · apply hone
    rw [exec_append, exec_append, exec_singleton]
    rw [exec_returned post _ (step_deadline_returned _)]
    exact step_deadline_returned _
  · apply hone
    obtain ⟨p1, p2, p3⟩ :=
      step_progress quiz.length (Runner.init quiz 0 stdin) rfl (by simp [Runner.init])
    have hend := step_at_end _ p2 (by rw [p1, p3]; simp [Runner.init])
    have hrun := exec_runner (quiz.length + 1) (Sys.init quiz stdin) rfl
    have hsend : (Runner.step^[quiz.length + 1] (Runner.init quiz 0 stdin)).sending = true := by
      rw [Function.iterate_succ_apply', hend]
    have hrecv : ∀ s : Sys, s.returned = false → s.runner.sending = true →
        (s.step Event.recv).returned = true := by
      intro s h1 h2
      simp [Sys.step, h1, h2, fire_eq]
    have hfire : (exec (Sys.init quiz stdin) (completion quiz.length)).returned = true := by
      unfold completion
      rw [exec_append, hrun, exec_singleton]
      exact hrecv _ rfl hsend
    rw [exec_append, exec_returned post _ hfire]
    exact hfire

/-- C10, the claim fails: the one-row input whose row has an empty first
field and the second field `4` has two fields in its row, and `createQuiz`
returns for it a quiz set whose question has the empty prompt. -/
theorem createQuiz_empty_prompt :
    (∀ row ∈ [["", "4"]], row.length = 2) ∧
    createQuiz (NewReader [["", "4"]])
      = Outcome.returned [{ question := "", answer := "4", correctResponseGiven := false }] [] ∧
    ∃ q ∈ [({ question := "", answer := "4", correctResponseGiven := false } : question)],
      q.question = "" := by
  decide

/-- C10 as amended: on every input of two-field rows whose first fields are
all non-empty, `createQuiz` returns a quiz set in which every question has a
non-empty prompt. -/
theorem createQuiz_prompts_nonempty (rows : List (List String))
    (h : ∀ row ∈ rows, row.length = 2) (hne : ∀ row ∈ rows, row.head? ≠ some "") :
    ∃ quiz : List question,
      createQuiz (NewReader rows) = Outcome.returned quiz [] ∧
      ∀ q ∈ quiz, q.question ≠ "" := by
  obtain ⟨pairs, hp⟩ := exists_pairs_of_two_fields rows h
  subst hp
  refine ⟨_, createQuiz_pairs pairs, ?_⟩
  intro q hq
  obtain ⟨pa, hpa, rfl⟩ := List.mem_map.mp hq
  have hrow : [pa.1, pa.2] ∈ recordsOf pairs := List.mem_map.mpr ⟨pa, hpa, rfl⟩
  have := hne _ hrow
  simpa [questionOf] using this

/-- Witness of C10 as amended: the scenario rows. -/
theorem createQuiz_prompts_nonempty_witness :
    (∀ row ∈ scenarioRows, row.length = 2) ∧ (∀ row ∈ scenarioRows, row.head? ≠ some "") ∧
    ∃ quiz : List question,
      createQuiz (NewReader scenarioRows) = Outcome.returned quiz [] ∧
      ∀ q ∈ quiz, q.question ≠ "" :=
  ⟨by decide, by decide, createQuiz_prompts_nonempty scenarioRows (by decide) (by decide)⟩

end Quiz
